import Mathlib

/-!
Shallow embedding of `src/examples/american_pricing/american_pricing.py`
(class `AmericanPricing`): the LSM (Longstaff-Schwartz) backward-induction
pricer `get_ls_price` and the MDP transition generator `state_reward_gen`,
together with the terminal-state predicate built in `get_tdl_obj`.

Modelling conventions:
* Python floats are modelled as real numbers (`ℝ`); `np.exp` is `Real.exp`.
* `np.ndarray` price vectors are modelled as `List ℝ`.
* Each call `np.random.normal(m, sqrt v)` is modelled by an oracle argument
  supplying the drawn value (`draw : ℕ → ℕ → ℝ` for the path ensemble,
  indexed by path and step; a single `next_price : ℝ` for one transition).
  Quantifying over the oracle captures "every outcome of the random draws";
  the mean/variance from `num_utils.get_future_price_mean_var` only shape
  the distribution of the draw, never the control flow, so they are absorbed
  into the oracle.
* `np.linalg.lstsq` (the minimum-norm least-squares coefficients) is modelled
  by an oracle argument `lstsq : List (List ℝ) → List ℝ → List ℝ`; only the
  comparison of the fitted estimate against the immediate payoff reaches the
  cash-flow vector, so every property below is proved for an arbitrary
  regression outcome.
-/

namespace AmericanPricing

/-- Constructor arguments of `AmericanPricing.__init__` (lines 28-40):
`spot_price`, `payoff`, `expiry`, `dispersion`, `ir`.  `dispersion` only
feeds the moment estimator, which is absorbed into the draw oracle. -/
structure Cfg where
  spot_price : ℝ
  payoff : ℝ → List ℝ → ℝ
  expiry : ℝ
  dispersion : ℝ → ℝ → ℝ
  ir : ℝ → ℝ

/-- `AmericanPricing.state_reward_gen` (lines 102-120).  `next_price` is the
outcome of `np.random.normal(m, np.sqrt(v))` on line 117.  Returns
`((next_t, price1), reward)` exactly as line 120. -/
noncomputable def state_reward_gen (cfg : Cfg) (state : ℝ × List ℝ)
    (action : Bool) (delta_t : ℝ) (next_price : ℝ) : (ℝ × List ℝ) × ℝ :=
  let t := state.1
  let price_arr := state.2
  let reward := if action then Real.exp (-(cfg.ir t)) * cfg.payoff t price_arr else 0
  let price1 := price_arr ++ [next_price]
  let next_t := (if action then cfg.expiry else t) + delta_t
  ((next_t, price1), reward)

/-- `terminal_state` from `get_tdl_obj` (lines 140-143): `s[0] > self.expiry`. -/
def terminal_state (cfg : Cfg) (s : ℝ × List ℝ) : Prop :=
  s.1 > cfg.expiry

/-- Trivial regression oracle used for concrete instances. -/
def lstsq0 : List (List ℝ) → List ℝ → List ℝ := fun _ _ => []

/-- Trivial draw oracle used for concrete instances. -/
def draw0 : ℕ → ℕ → ℝ := fun _ _ => 0

/-- Concrete configuration used in counterexamples/witnesses: spot 80,
payoff constantly 0, expiry 1, zero dispersion, zero rate curve. -/
def cfgA : Cfg := ⟨80, fun _ _ => 0, 1, fun _ _ => 0, fun _ => 0⟩

/-- Claim C1 (counterexample): at expiry 1, state (0, [80]), exercise action,
`dt = 1`, the next state's time is `expiry + dt = 2`, not `expiry = 1` as the
claim states. -/
theorem c1_counterexample :
    ¬ (((state_reward_gen cfgA (0, [80]) true 1 0).1).1 = cfgA.expiry) := by
  simp [state_reward_gen, cfgA]

/-- Claim C1 (amended): for every state, action and `dt > 0`, the next state's
time is `expiry + dt` if the action was exercise, and `current_time + dt` if
the action was continue. -/
theorem c1_next_time (cfg : Cfg) (state : ℝ × List ℝ) (action : Bool)
    (delta_t : ℝ) (next_price : ℝ) (_hdt : 0 < delta_t) :
    ((state_reward_gen cfg state action delta_t next_price).1).1
      = (if action then cfg.expiry else state.1) + delta_t := by
  rfl

/-- Witness for `c1_next_time` at a concrete input. -/
theorem c1_next_time_witness :
    (0:ℝ) < 1 ∧
      ((state_reward_gen cfgA (0, [80]) true 1 0).1).1
        = (if true then cfgA.expiry else (0:ℝ)) + 1 :=
  ⟨by norm_num, c1_next_time cfgA (0, [80]) true 1 0 (by norm_num)⟩

/-- Claim C4: the reward on exercise is exactly
`exp(-ir(t)) * payoff(t, price_history)`, and the reward on continue is
exactly 0 (line 109). -/
theorem c4_reward (cfg : Cfg) (state : ℝ × List ℝ) (delta_t next_price : ℝ) :
    (state_reward_gen cfg state true delta_t next_price).2
        = Real.exp (-(cfg.ir state.1)) * cfg.payoff state.1 state.2
      ∧ (state_reward_gen cfg state false delta_t next_price).2 = 0 :=
  ⟨rfl, rfl⟩

/-- Claim C8: `terminal_state` holds for every state with time strictly
greater than `expiry`, and fails for every state with time at most `expiry`
(lines 140-143). -/
theorem c8_terminal (cfg : Cfg) (t : ℝ) (hist : List ℝ) :
    (cfg.expiry < t → terminal_state cfg (t, hist))
      ∧ (t ≤ cfg.expiry → ¬ terminal_state cfg (t, hist)) :=
  ⟨fun h => h, fun h => not_lt.mpr h⟩

/-- Witness for `c8_terminal` at concrete inputs. -/
theorem c8_terminal_witness :
    terminal_state cfgA (2, []) ∧ ¬ terminal_state cfgA (0, []) :=
  ⟨(c8_terminal cfgA 2 []).1 (by norm_num [cfgA]),
   (c8_terminal cfgA 0 []).2 (by norm_num [cfgA])⟩

/-- Claim C10: `state_reward_gen` returns a next state whose price history is
the input history with the drawn price appended: it equals
`price_history ++ [next_price]`, has length `len + 1`, its first `len`
elements are the input history, and its last element is the drawn price
(line 118, `np.append` builds a fresh array). -/
theorem c10_history (cfg : Cfg) (state : ℝ × List ℝ) (action : Bool)
    (delta_t next_price : ℝ) :
    ((state_reward_gen cfg state action delta_t next_price).1).2
        = state.2 ++ [next_price]
      ∧ (((state_reward_gen cfg state action delta_t next_price).1).2).length
        = state.2.length + 1
      ∧ (((state_reward_gen cfg state action delta_t next_price).1).2).take
          state.2.length = state.2
      ∧ (((state_reward_gen cfg state action delta_t next_price).1).2).getLast?
        = some next_price := by
  refine ⟨rfl, by simp [state_reward_gen], ?_, ?_⟩
  · show (state.2 ++ [next_price]).take state.2.length = state.2
    simp
  · show (state.2 ++ [next_price]).getLast? = some next_price
    simp

/-- One simulated price path (lines 51-62, inner loop for a fixed path
index): starts at the spot price, then one drawn price per step; the drawn
value `draw t` models `np.random.normal(m, np.sqrt(v))` at step `t`. -/
def simPath (spot : ℝ) (num_dt : ℕ) (draw : ℕ → ℝ) : List ℝ :=
  spot :: (List.range num_dt).map draw

/-- The simulated path ensemble `paths` (lines 49-62): `num_paths` rows,
row `i` built by `simPath` with the row's draw oracle. -/
def simPaths (spot : ℝ) (num_dt num_paths : ℕ) (draw : ℕ → ℕ → ℝ) :
    List (List ℝ) :=
  (List.range num_paths).map (fun i => simPath spot num_dt (draw i))

/-- Dot product of two coordinate lists (`x_vals.dot(beta)`, one row). -/
def dotL (a b : List ℝ) : ℝ := (List.zipWith (· * ·) a b).sum

/-- Immediate payoff of path `i` at backward-induction step `t`
(lines 79-80): `self.payoff(t, paths[i, :(t + 1)])`; note the source passes
the integer step index `t` itself as the time argument. -/
noncomputable def stepPayoff (cfg : Cfg) (paths : List (List ℝ)) (t i : ℕ) : ℝ :=
  cfg.payoff t ((paths.getD i []).take (t + 1))

/-- Feature row of path `i` at step `t` (lines 83-84):
`[f(t, paths[i, :(t + 1)]) for f in feature_funcs]`. -/
noncomputable def featureRow (feature_funcs : List (ℝ → List ℝ → ℝ))
    (paths : List (List ℝ)) (t i : ℕ) : List ℝ :=
  feature_funcs.map (fun f => f t ((paths.getD i []).take (t + 1)))

/-- One backward-induction step of `get_ls_price` (loop body, lines 65-95):
discount the cash-flow vector by `exp(ir(t) - ir(t + dt))`, compute immediate
payoffs, select in-the-money paths (`payoff > 0`), and if any exist, regress
their discounted cash flows on the feature rows and overwrite the cash flow
of each in-the-money path whose payoff beats the fitted estimate. -/
noncomputable def lsStep (cfg : Cfg) (feature_funcs : List (ℝ → List ℝ → ℝ))
    (lstsq : List (List ℝ) → List ℝ → List ℝ) (paths : List (List ℝ))
    (num_paths : ℕ) (dt : ℝ) (t : ℕ) (cashflow : List ℝ) : List ℝ :=
  let disc := Real.exp (cfg.ir t - cfg.ir (t + dt))
  let cf1 := cashflow.map (· * disc)
  let indices := (List.range num_paths).filter
    (fun i => decide (0 < stepPayoff cfg paths t i))
  if indices.isEmpty then cf1
  else
    let x_vals := indices.map (featureRow feature_funcs paths t)
    let y_vals := indices.map (fun i => cf1.getD i 0)
    let beta := lstsq x_vals y_vals
    (List.range num_paths).map (fun i =>
      if 0 < stepPayoff cfg paths t i
          ∧ dotL (featureRow feature_funcs paths t i) beta
            < stepPayoff cfg paths t i
      then stepPayoff cfg paths t i
      else cf1.getD i 0)

/-- The step indices of the backward loop `range(num_dt - 1, 0, -1)`
(line 65): `[num_dt - 1, ..., 1]`. -/
def tSteps (num_dt : ℕ) : List ℕ :=
  (((List.range (num_dt - 1))).map (· + 1)).reverse

/-- Initial cash-flow vector at expiry (lines 63-64):
`max(payoff(expiry, paths[i, :]), 0)` per path. -/
noncomputable def terminalCashflow (cfg : Cfg) (paths : List (List ℝ))
    (num_paths : ℕ) : List ℝ :=
  (List.range num_paths).map
    (fun i => max (cfg.payoff cfg.expiry (paths.getD i [])) 0)

/-- The cash-flow vector after the whole backward induction (lines 63-95). -/
noncomputable def lsCashflow (cfg : Cfg) (feature_funcs : List (ℝ → List ℝ → ℝ))
    (lstsq : List (List ℝ) → List ℝ → List ℝ) (paths : List (List ℝ))
    (num_paths : ℕ) (dt : ℝ) (num_dt : ℕ) : List ℝ :=
  (tSteps num_dt).foldl
    (fun cf t => lsStep cfg feature_funcs lstsq paths num_paths dt t cf)
    (terminalCashflow cfg paths num_paths)

/-- `np.average` of a list: sum divided by length. -/
noncomputable def avg (xs : List ℝ) : ℝ := xs.sum / xs.length

/-- `AmericanPricing.get_ls_price` (lines 42-100): simulate the ensemble,
run the backward induction, and return
`max(payoff(0, [spot]), average(cashflow * exp(-ir(dt))))`. -/
noncomputable def get_ls_price (cfg : Cfg) (num_dt num_paths : ℕ)
    (feature_funcs : List (ℝ → List ℝ → ℝ))
    (lstsq : List (List ℝ) → List ℝ → List ℝ) (draw : ℕ → ℕ → ℝ) : ℝ :=
  let dt := cfg.expiry / num_dt
  let paths := simPaths cfg.spot_price num_dt num_paths draw
  let cashflow := lsCashflow cfg feature_funcs lstsq paths num_paths dt num_dt
  max (cfg.payoff 0 [cfg.spot_price])
    (avg (cashflow.map (· * Real.exp (-(cfg.ir dt)))))

/-- Helper: `getD` through an elementwise multiplication, in bounds. -/
theorem getD_map_mul (l : List ℝ) (c : ℝ) (i : ℕ) (h : i < l.length) :
    (l.map (· * c)).getD i 0 = l.getD i 0 * c := by
  rw [List.getD_eq_getElem?_getD, List.getD_eq_getElem?_getD,
    List.getElem?_map, List.getElem?_eq_getElem h]
  rfl

/-- Helper: `getD` through a map over `List.range`, in bounds. -/
theorem getD_map_range (n : ℕ) (g : ℕ → ℝ) (i : ℕ) (h : i < n) :
    ((List.range n).map g).getD i 0 = g i := by
  rw [List.getD_eq_getElem?_getD, List.getElem?_map, List.getElem?_range h]
  rfl

/-- Helper: when no path is in the money at step `t`, the backward-induction
step reduces to pure discounting of the cash-flow vector. -/
theorem lsStep_no_itm (cfg : Cfg) (feature_funcs : List (ℝ → List ℝ → ℝ))
    (lstsq : List (List ℝ) → List ℝ → List ℝ) (paths : List (List ℝ))
    (num_paths : ℕ) (dt : ℝ) (t : ℕ) (cf : List ℝ)
    (h : ∀ i, i < num_paths → stepPayoff cfg paths t i ≤ 0) :
    lsStep cfg feature_funcs lstsq paths num_paths dt t cf
      = cf.map (· * Real.exp (cfg.ir t - cfg.ir (t + dt))) := by
  have hind : (List.range num_paths).filter
      (fun i => decide (0 < stepPayoff cfg paths t i)) = [] := by
    apply List.filter_eq_nil_iff.mpr
    intro i hi
    simpa using not_lt.mpr (h i (List.mem_range.mp hi))
  simp [lsStep, hind]

/-- Configuration with payoff constantly `-1`, expiry 1 and identity rate
curve, used to exhibit the discounting performed on no-in-the-money steps. -/
def cfgB : Cfg := ⟨1, fun _ _ => -1, 1, fun _ _ => 0, fun u => u⟩

/-- Claim C3 (counterexample): with payoff constantly `-1` no path is in the
money at step 1, yet the step changes the cash-flow vector `[1]`, because the
vector is multiplied by `exp(ir(1) - ir(2)) = exp(-1) ≠ 1` before the
in-the-money test. -/
theorem c3_counterexample :
    stepPayoff cfgB [[1, 1]] 1 0 ≤ 0
      ∧ lsStep cfgB [] lstsq0 [[1, 1]] 1 1 1 [1] ≠ [1] := by
  constructor
  · norm_num [stepPayoff, cfgB]
  · rw [lsStep_no_itm cfgB [] lstsq0 [[1, 1]] 1 1 1 [1]
      (fun i hi => by
        have h0 : i = 0 := by omega
        subst h0
        norm_num [stepPayoff, cfgB])]
    simp only [List.map_cons, List.map_nil, cfgB, ne_eq, List.cons.injEq,
      and_true, one_mul]
    intro hcontra
    rw [Real.exp_eq_one_iff] at hcontra
    norm_num at hcontra

/-- Claim C3 (amended): a backward-induction step at which no path has
strictly positive immediate payoff multiplies every cash-flow entry by the
one-step discount factor `exp(ir(t) - ir(t + dt))` and does nothing else —
no regression and no overwriting take place. -/
theorem c3_no_itm_discount_only (cfg : Cfg)
    (feature_funcs : List (ℝ → List ℝ → ℝ))
    (lstsq : List (List ℝ) → List ℝ → List ℝ) (paths : List (List ℝ))
    (num_paths : ℕ) (dt : ℝ) (t : ℕ) (cf : List ℝ)
    (h : ∀ i, i < num_paths → stepPayoff cfg paths t i ≤ 0) :
    lsStep cfg feature_funcs lstsq paths num_paths dt t cf
      = cf.map (· * Real.exp (cfg.ir t - cfg.ir (t + dt))) :=
  lsStep_no_itm cfg feature_funcs lstsq paths num_paths dt t cf h

/-- Witness for `c3_no_itm_discount_only` at a concrete input. -/
theorem c3_no_itm_discount_only_witness :
    (∀ i, i < 1 → stepPayoff cfgB [[1, 1]] 1 i ≤ 0)
      ∧ lsStep cfgB [] lstsq0 [[1, 1]] 1 1 1 [1]
        = [(1:ℝ)].map (· * Real.exp (cfgB.ir 1 - cfgB.ir (1 + 1))) := by
  have hpay : ∀ i, i < 1 → stepPayoff cfgB [[1, 1]] 1 i ≤ 0 := by
    intro i hi
    have h0 : i = 0 := by omega
    subst h0
    norm_num [stepPayoff, cfgB]
  refine ⟨hpay, ?_⟩
  have h := c3_no_itm_discount_only cfgB [] lstsq0 [[1, 1]] 1 1 1 [1] hpay
  simpa using h

/-- Claim C7: at any backward-induction step, a path whose immediate payoff
is non-positive keeps its discounted cash flow: entry `i` of the step's
output is exactly `cashflow[i] * exp(ir(t) - ir(t + dt))`, untouched by the
regression/exercise decision. -/
theorem c7_out_of_money_untouched (cfg : Cfg)
    (feature_funcs : List (ℝ → List ℝ → ℝ))
    (lstsq : List (List ℝ) → List ℝ → List ℝ) (paths : List (List ℝ))
    (num_paths : ℕ) (dt : ℝ) (t : ℕ) (cf : List ℝ) (i : ℕ)
    (hlen : cf.length = num_paths) (hi : i < num_paths)
    (hpay : stepPayoff cfg paths t i ≤ 0) :
    (lsStep cfg feature_funcs lstsq paths num_paths dt t cf).getD i 0
      = cf.getD i 0 * Real.exp (cfg.ir t - cfg.ir (t + dt)) := by
  have hlen' : i < cf.length := by omega
  unfold lsStep
  by_cases hemp : ((List.range num_paths).filter
      (fun j => decide (0 < stepPayoff cfg paths t j))).isEmpty
  · simp only [hemp, if_true]
    exact getD_map_mul cf _ i hlen'
  · simp only [hemp, Bool.false_eq_true, if_false]
    rw [getD_map_range num_paths _ i hi, if_neg, getD_map_mul cf _ i hlen']
    rintro ⟨h1, -⟩
    exact absurd h1 (not_lt.mpr hpay)

/-- Witness for `c7_out_of_money_untouched` at a concrete input. -/
theorem c7_out_of_money_untouched_witness :
    ([(5:ℝ)]).length = 1 ∧ (0:ℕ) < 1 ∧ stepPayoff cfgB [[1, 1]] 1 0 ≤ 0
      ∧ (lsStep cfgB [] lstsq0 [[1, 1]] 1 1 1 [5]).getD 0 0
        = ([(5:ℝ)]).getD 0 0 * Real.exp (cfgB.ir 1 - cfgB.ir (1 + 1)) :=
  ⟨by norm_num, by norm_num, by norm_num [stepPayoff, cfgB], by
    have h := c7_out_of_money_untouched cfgB [] lstsq0 [[1, 1]] 1 1 1 [5] 0
      (by norm_num) (by norm_num) (by norm_num [stepPayoff, cfgB])
    simpa using h⟩

/-- Claim C9: the simulated ensemble has exactly `num_paths` rows, every row
has `num_dt + 1` entries, and entry 0 of every row is the spot price. -/
theorem c9_path_shape (spot : ℝ) (num_dt num_paths : ℕ) (draw : ℕ → ℕ → ℝ)
    (_h1 : 0 < num_dt) (_h2 : 0 < num_paths) :
    (simPaths spot num_dt num_paths draw).length = num_paths
      ∧ ∀ p ∈ simPaths spot num_dt num_paths draw,
          p.length = num_dt + 1 ∧ p.getD 0 0 = spot := by
  refine ⟨by simp [simPaths], ?_⟩
  intro p hp
  simp only [simPaths, List.mem_map, List.mem_range] at hp
  obtain ⟨i, -, rfl⟩ := hp
  exact ⟨by simp [simPath], rfl⟩

/-- Witness for `c9_path_shape` at a concrete input. -/
theorem c9_path_shape_witness :
    (0:ℕ) < 2 ∧ (0:ℕ) < 3
      ∧ ((simPaths 5 2 3 draw0).length = 3
          ∧ ∀ p ∈ simPaths 5 2 3 draw0, p.length = 2 + 1 ∧ p.getD 0 0 = 5) :=
  ⟨by norm_num, by norm_num, c9_path_shape 5 2 3 draw0 (by norm_num) (by norm_num)⟩

/-- Helper: one backward-induction step preserves the cash-flow length. -/
theorem lsStep_length (cfg : Cfg) (feature_funcs : List (ℝ → List ℝ → ℝ))
    (lstsq : List (List ℝ) → List ℝ → List ℝ) (paths : List (List ℝ))
    (num_paths : ℕ) (dt : ℝ) (t : ℕ) (cf : List ℝ)
    (h : cf.length = num_paths) :
    (lsStep cfg feature_funcs lstsq paths num_paths dt t cf).length
      = num_paths := by
  simp only [lsStep]
  split
  · simpa using h
  · simp

/-- Helper: the whole backward induction yields a cash-flow vector of length
`num_paths`. -/
theorem lsCashflow_length (cfg : Cfg) (feature_funcs : List (ℝ → List ℝ → ℝ))
    (lstsq : List (List ℝ) → List ℝ → List ℝ) (paths : List (List ℝ))
    (num_paths : ℕ) (dt : ℝ) (num_dt : ℕ) :
    (lsCashflow cfg feature_funcs lstsq paths num_paths dt num_dt).length
      = num_paths := by
  unfold lsCashflow
  have hgen : ∀ (l : List ℕ) (cf : List ℝ), cf.length = num_paths →
      (l.foldl (fun c t => lsStep cfg feature_funcs lstsq paths num_paths dt t c)
        cf).length = num_paths := by
    intro l
    induction l with
    | nil => intro cf h; simpa using h
    | cons a l ih =>
        intro cf h
        exact ih _ (lsStep_length cfg feature_funcs lstsq paths num_paths dt a cf h)
  exact hgen _ _ (by simp [terminalCashflow])

/-- Helper: `getD` with default 0 of a list of non-negative entries. -/
theorem getD_nonneg (l : List ℝ) (h : ∀ x ∈ l, 0 ≤ x) : ∀ i, 0 ≤ l.getD i 0 := by
  induction l with
  | nil => intro i; simp [List.getD]
  | cons a l ih =>
      intro i
      cases i with
      | zero => exact h a (by simp)
      | succ n => exact ih (fun x hx => h x (by simp [hx])) n

/-- Helper: a backward-induction step maps non-negative cash flows to
non-negative cash flows: discounting multiplies by `exp(...) > 0`, and any
overwrite installs a strictly positive immediate payoff. -/
theorem lsStep_nonneg (cfg : Cfg) (feature_funcs : List (ℝ → List ℝ → ℝ))
    (lstsq : List (List ℝ) → List ℝ → List ℝ) (paths : List (List ℝ))
    (num_paths : ℕ) (dt : ℝ) (t : ℕ) (cf : List ℝ)
    (h : ∀ x ∈ cf, 0 ≤ x) :
    ∀ x ∈ lsStep cfg feature_funcs lstsq paths num_paths dt t cf, 0 ≤ x := by
  have hcf1 : ∀ x ∈ cf.map (· * Real.exp (cfg.ir t - cfg.ir (t + dt))), 0 ≤ x := by
    intro x hx
    obtain ⟨y, hy, rfl⟩ := List.mem_map.mp hx
    exact mul_nonneg (h y hy) (Real.exp_pos _).le
  intro x hx
  simp only [lsStep] at hx
  split at hx
  · exact hcf1 x hx
  · obtain ⟨i, -, rfl⟩ := List.mem_map.mp hx
    split
    · next hcond => exact hcond.1.le
    · exact getD_nonneg _ hcf1 i

/-- Helper: the final cash-flow vector is entrywise non-negative. -/
theorem lsCashflow_nonneg (cfg : Cfg) (feature_funcs : List (ℝ → List ℝ → ℝ))
    (lstsq : List (List ℝ) → List ℝ → List ℝ) (paths : List (List ℝ))
    (num_paths : ℕ) (dt : ℝ) (num_dt : ℕ) :
    ∀ x ∈ lsCashflow cfg feature_funcs lstsq paths num_paths dt num_dt,
      0 ≤ x := by
  unfold lsCashflow
  have hgen : ∀ (l : List ℕ) (cf : List ℝ), (∀ x ∈ cf, 0 ≤ x) →
      ∀ x ∈ l.foldl
        (fun c t => lsStep cfg feature_funcs lstsq paths num_paths dt t c) cf,
        0 ≤ x := by
    intro l
    induction l with
    | nil => intro cf h; simpa using h
    | cons a l ih =>
        intro cf h
        exact ih _ (lsStep_nonneg cfg feature_funcs lstsq paths num_paths dt a cf h)
  apply hgen
  intro x hx
  obtain ⟨i, -, rfl⟩ := List.mem_map.mp hx
  exact le_max_right _ _

/-- Claim C5: for positive `num_dt` and `num_paths` and every outcome of the
draws (and of the regression), the LSM price equals
`max(payoff(0, [spot]), (sum of cashflow * exp(-ir(dt))) / num_paths)` with
`dt = expiry / num_dt` and `cashflow` the final backward-induction vector. -/
theorem c5_final_price (cfg : Cfg) (num_dt num_paths : ℕ)
    (feature_funcs : List (ℝ → List ℝ → ℝ))
    (lstsq : List (List ℝ) → List ℝ → List ℝ) (draw : ℕ → ℕ → ℝ)
    (_h1 : 0 < num_dt) (_h2 : 0 < num_paths) :
    get_ls_price cfg num_dt num_paths feature_funcs lstsq draw
      = max (cfg.payoff 0 [cfg.spot_price])
          (((lsCashflow cfg feature_funcs lstsq
              (simPaths cfg.spot_price num_dt num_paths draw) num_paths
              (cfg.expiry / num_dt) num_dt).map
            (· * Real.exp (-(cfg.ir (cfg.expiry / num_dt))))).sum
            / num_paths) := by
  simp only [get_ls_price, avg]
  rw [List.length_map, lsCashflow_length]

/-- Witness for `c5_final_price` at a concrete input. -/
theorem c5_final_price_witness :
    (0:ℕ) < 1 ∧ (0:ℕ) < 1
      ∧ get_ls_price cfgA 1 1 [] lstsq0 draw0
        = max (cfgA.payoff 0 [cfgA.spot_price])
            (((lsCashflow cfgA [] lstsq0 (simPaths cfgA.spot_price 1 1 draw0) 1
                (cfgA.expiry / (1:ℕ)) 1).map
              (· * Real.exp (-(cfgA.ir (cfgA.expiry / (1:ℕ)))))).sum / (1:ℕ)) :=
  ⟨by norm_num, by norm_num,
   c5_final_price cfgA 1 1 [] lstsq0 draw0 (by norm_num) (by norm_num)⟩

/-- Claim C6: for every configuration with positive `num_dt` and `num_paths`
and every outcome of the draws, the LSM price is at least
`max(payoff(0, [spot]), 0)`. -/
theorem c6_lower_bound (cfg : Cfg) (num_dt num_paths : ℕ)
    (feature_funcs : List (ℝ → List ℝ → ℝ))
    (lstsq : List (List ℝ) → List ℝ → List ℝ) (draw : ℕ → ℕ → ℝ)
    (_h1 : 0 < num_dt) (_h2 : 0 < num_paths) :
    max (cfg.payoff 0 [cfg.spot_price]) 0
      ≤ get_ls_price cfg num_dt num_paths feature_funcs lstsq draw := by
  unfold get_ls_price
  apply max_le_max (le_refl _)
  unfold avg
  apply div_nonneg
  · apply List.sum_nonneg
    intro x hx
    obtain ⟨y, hy, rfl⟩ := List.mem_map.mp hx
    exact mul_nonneg
      (lsCashflow_nonneg cfg feature_funcs lstsq _ num_paths _ num_dt y hy)
      (Real.exp_pos _).le
  · positivity

/-- Witness for `c6_lower_bound` at a concrete input. -/
theorem c6_lower_bound_witness :
    (0:ℕ) < 1 ∧ (0:ℕ) < 1
      ∧ max (cfgA.payoff 0 [cfgA.spot_price]) 0
        ≤ get_ls_price cfgA 1 1 [] lstsq0 draw0 :=
  ⟨by norm_num, by norm_num,
   c6_lower_bound cfgA 1 1 [] lstsq0 draw0 (by norm_num) (by norm_num)⟩

/-- Configuration with a non-positive expiry (`expiry = -1`), an invalid
configuration per the spec, together with payoff constantly 0 and zero rate
curve, used to show `get_ls_price` simply computes on it. -/
def cfgC : Cfg := ⟨1, fun _ _ => 0, -1, fun _ _ => 0, fun _ => 0⟩

/-- Claim C2 (counterexample): with the invalid configuration `expiry = -1`
(and valid `num_dt = num_paths = 1`), `get_ls_price` raises no
invalid-argument condition: it runs the simulation and the backward
induction and returns the price 0. -/
theorem c2_counterexample :
    cfgC.expiry ≤ 0 ∧ get_ls_price cfgC 1 1 [] lstsq0 draw0 = 0 := by
  constructor
  · norm_num [cfgC]
  · simp [get_ls_price, lsCashflow, tSteps, terminalCashflow, simPaths,
      simPath, avg, cfgC, draw0]

/-- Claim C2 (amended): `get_ls_price` performs no validation of its
configuration: with positive `num_dt` and `num_paths`, a non-positive expiry
is never rejected — the invalid value flows through the simulation unchecked
and the usual LSM result
`max(payoff(0, [spot]), average(cashflow * exp(-ir(dt))))` is returned.
(The positivity hypotheses keep the statement on the domain where the Python
run completes: `num_dt = 0` stops with a `ZeroDivisionError` at
`dt = expiry / num_dt` and `num_paths = 0` averages an empty array — both
incidental arithmetic failures, not invalid-argument checks.) -/
theorem c2_no_validation (cfg : Cfg) (num_dt num_paths : ℕ)
    (feature_funcs : List (ℝ → List ℝ → ℝ))
    (lstsq : List (List ℝ) → List ℝ → List ℝ) (draw : ℕ → ℕ → ℝ)
    (_h1 : 0 < num_dt) (_h2 : 0 < num_paths) (_h : cfg.expiry ≤ 0) :
    get_ls_price cfg num_dt num_paths feature_funcs lstsq draw
      = max (cfg.payoff 0 [cfg.spot_price])
          (avg ((lsCashflow cfg feature_funcs lstsq
              (simPaths cfg.spot_price num_dt num_paths draw) num_paths
              (cfg.expiry / num_dt) num_dt).map
            (· * Real.exp (-(cfg.ir (cfg.expiry / num_dt)))))) :=
  rfl

/-- Witness for `c2_no_validation` at a concrete input. -/
theorem c2_no_validation_witness :
    (0:ℕ) < 2 ∧ (0:ℕ) < 1 ∧ cfgC.expiry ≤ 0
      ∧ get_ls_price cfgC 2 1 [] lstsq0 draw0
        = max (cfgC.payoff 0 [cfgC.spot_price])
            (avg ((lsCashflow cfgC [] lstsq0 (simPaths cfgC.spot_price 2 1 draw0)
                1 (cfgC.expiry / (2:ℕ)) 2).map
              (· * Real.exp (-(cfgC.ir (cfgC.expiry / (2:ℕ))))))) :=
  ⟨by norm_num, by norm_num, by norm_num [cfgC],
   c2_no_validation cfgC 2 1 [] lstsq0 draw0 (by norm_num) (by norm_num)
     (by norm_num [cfgC])⟩

end AmericanPricing
